import Mathlib

set_option maxHeartbeats 1000000

namespace Echoregions

/-! Shallow embedding of the echoregions repository: the EVL line-file parser,
the EVR region-file parser with its depth-bound state, the point lookup across
CSV/JSON/parsed sources, the time-string decoder, and the 2D/3D mask converter.
Components whose code is not in the repository snapshot (the mask converter,
the tokenizer of the record reader, the time decoder) are modelled from the
specification, as marked on their doc comments. -/

/-! ## Basic list utilities used by the embedding -/

/-- Deduplicate a list keeping the first occurrence of each element,
preserving first-appearance order; `seen` accumulates already-kept elements. -/
def firstDedupAux [DecidableEq α] (seen : List α) : List α → List α
  | [] => []
  | x :: xs => if x ∈ seen then firstDedupAux seen xs else x :: firstDedupAux (x :: seen) xs

/-- Deduplicate keeping first occurrences (the label ordering rule of the spec). -/
def firstDedup [DecidableEq α] (l : List α) : List α := firstDedupAux [] l

theorem mem_firstDedupAux [DecidableEq α] (l : List α) :
    ∀ (seen : List α) (a : α), a ∈ firstDedupAux seen l ↔ a ∈ l ∧ a ∉ seen := by
  induction l with
  | nil => intro seen a; simp [firstDedupAux]
  | cons x xs ih =>
    intro seen a
    by_cases hx : x ∈ seen
    · simp only [firstDedupAux, if_pos hx, ih, List.mem_cons]
      constructor
      · rintro ⟨h1, h2⟩; exact ⟨Or.inr h1, h2⟩
      · rintro ⟨rfl | h1, h2⟩
        · exact absurd hx h2
        · exact ⟨h1, h2⟩
    · simp only [firstDedupAux, if_neg hx, List.mem_cons, ih]
      by_cases hax : a = x
      · simp [hax]; exact hx
      · simp [hax]

theorem nodup_firstDedupAux [DecidableEq α] (l : List α) :
    ∀ seen : List α, (firstDedupAux seen l).Nodup := by
  induction l with
  | nil => intro seen; simp [firstDedupAux]
  | cons x xs ih =>
    intro seen
    by_cases hx : x ∈ seen
    · simpa [firstDedupAux, if_pos hx] using ih seen
    · simp only [firstDedupAux, if_neg hx, List.nodup_cons]
      refine ⟨fun hc => ?_, ih (x :: seen)⟩
      exact ((mem_firstDedupAux xs (x :: seen) x).mp hc).2 (List.mem_cons_self _ _)

theorem firstDedupAux_eq_nil [DecidableEq α] (l : List α) :
    ∀ seen : List α, firstDedupAux seen l = [] ↔ ∀ a ∈ l, a ∈ seen := by
  induction l with
  | nil => intro seen; simp [firstDedupAux]
  | cons x xs ih =>
    intro seen
    by_cases hx : x ∈ seen
    · simp only [firstDedupAux, if_pos hx, ih]
      constructor
      · intro h a ha
        rcases List.mem_cons.mp ha with rfl | ha
        · exact hx
        · exact h a ha
      · intro h a ha; exact h a (List.mem_cons_of_mem _ ha)
    · simp only [firstDedupAux, if_neg hx]
      constructor
      · intro h; cases h
      · intro h; exact absurd (h x (List.mem_cons_self _ _)) hx

theorem mem_firstDedup [DecidableEq α] (l : List α) (a : α) :
    a ∈ firstDedup l ↔ a ∈ l := by
  simp [firstDedup, mem_firstDedupAux]

theorem nodup_firstDedup [DecidableEq α] (l : List α) : (firstDedup l).Nodup :=
  nodup_firstDedupAux l []

theorem firstDedup_eq_nil [DecidableEq α] (l : List α) :
    firstDedup l = [] ↔ l = [] := by
  simp only [firstDedup, firstDedupAux_eq_nil, List.not_mem_nil]
  constructor
  · intro h
    cases l with
    | nil => rfl
    | cons x xs => exact absurd (h x (List.mem_cons_self _ _)) id
  · rintro rfl; simp

/-! ## MaskConverter (spec section 4.5)

The mask conversion code (`convert_mask_2d_to_3d` / `convert_mask_3d_to_2d`)
is not part of the repository snapshot; only its tests are.  The definitions
below are modelled from the specification. -/

/-- A labeled 2D raster: each cell is unset (not-a-number in the source,
`none` here) or carries exactly one label value. -/
abbrev Raster (α : Type) := List (List (Option α))

/-- One-hot mask stack: ordered distinct labels plus one boolean plane per
label (a single degenerate all-false plane when there are no labels). -/
structure MaskStack (α : Type) where
  labels : List α
  planes : List (List (List Bool))
  deriving Repr, DecidableEq

/-- Modelled from the spec: the label universe of a raster, the distinct
non-empty cell values ordered by first appearance row-major. -/
def rasterLabels [DecidableEq α] (R : Raster α) : List α :=
  firstDedup (R.flatten.filterMap id)

/-- Modelled from the spec: the one-hot plane of one label,
true exactly where the raster carries that label. -/
def planeOf [DecidableEq α] (R : Raster α) (l : α) : List (List Bool) :=
  R.map (fun row => row.map (fun c => decide (c = some l)))

/-- An all-false plane with the shape of the raster (the degenerate plane the
spec mandates for the all-empty raster). -/
def allFalsePlane (R : Raster α) : List (List Bool) :=
  R.map (fun row => row.map (fun _ => false))

/-- Modelled from the spec: `convert_mask_2d_to_3d` converts a labeled 2D
raster into a one-hot stack keyed by first-appearance label order; an
all-empty raster yields zero labels and a single degenerate all-false plane. -/
def convert_mask_2d_to_3d [DecidableEq α] (R : Raster α) : MaskStack α :=
  match rasterLabels R with
  | [] => ⟨[], [allFalsePlane R]⟩
  | l :: L => ⟨l :: L, (l :: L).map (planeOf R)⟩

/-- Boolean value of a plane at a cell, false outside the extent of the plane. -/
def planeAt (p : List (List Bool)) (i j : ℕ) : Bool := (p.getD i []).getD j false

/-- Value of a raster at a cell, unset outside the extent of the raster. -/
def cellAt (R : Raster α) (i j : ℕ) : Option α := (R.getD i []).getD j none

/-- The label reconstructed at one cell: the first label whose plane is true
there (unique when there is no overlap). -/
def cellOf (S : MaskStack α) (i j : ℕ) : Option α :=
  ((S.labels.zip S.planes).find? (fun lp => planeAt lp.2 i j)).map Prod.fst

/-- Number of planes of the stack that are true at a given cell. -/
def countTrue (S : MaskStack α) (i j : ℕ) : ℕ :=
  (S.planes.filter (fun p => planeAt p i j)).length

/-- Row extent of the planes of the stack. -/
def planesRows (S : MaskStack α) : ℕ :=
  S.planes.foldr (fun p m => max p.length m) 0

/-- Column extent of the planes of the stack. -/
def planesCols (S : MaskStack α) : ℕ :=
  S.planes.foldr (fun p m => max (p.foldr (fun r k => max r.length k) 0) m) 0

/-- Decidable scan for an overlap: some cell at which two or more planes
are true. -/
def hasOverlap (S : MaskStack α) : Bool :=
  (List.range (planesRows S)).any (fun i =>
    (List.range (planesCols S)).any (fun j => decide (2 ≤ countTrue S i j)))

/-- Reconstruct the 2D raster from a stack: shape taken from the first plane,
each cell the label whose plane is true there. -/
def recombine (S : MaskStack α) : Raster α :=
  let t := S.planes.headD []
  (List.range t.length).map (fun i =>
    (List.range ((t.getD i []).length)).map (fun j => cellOf S i j))

/-- Modelled from the spec: `convert_mask_3d_to_2d` recombines a one-hot stack
into a labeled raster and fails with ValueError on any overlapping cell. -/
def convert_mask_3d_to_2d (S : MaskStack α) : Except String (Raster α) :=
  if hasOverlap S then Except.error "Overlapping regions detected" else Except.ok (recombine S)

theorem planeAt_planeOf [DecidableEq α] (R : Raster α) (l : α) (i j : ℕ) :
    planeAt (planeOf R l) i j = decide (cellAt R i j = some l) := by
  have key : ∀ o : Option (Option α),
      (Option.map (fun c => decide (c = some l)) o).getD false
        = decide (o.getD none = some l) := by
    intro o; cases o <;> simp
  simp only [planeAt, planeOf, cellAt, List.getD_eq_getElem?_getD, List.getElem?_map]
  cases h : R[i]? with
  | none => simp
  | some row =>
    simp only [Option.map_some', Option.getD_some, List.getElem?_map]
    exact key (row[j]?)

theorem planeAt_allFalsePlane (R : Raster α) (i j : ℕ) :
    planeAt (allFalsePlane R) i j = false := by
  simp only [planeAt, allFalsePlane, List.getD_eq_getElem?_getD, List.getElem?_map]
  cases h : R[i]? with
  | none => simp
  | some row =>
    simp only [Option.map_some', Option.getD_some, List.getElem?_map]
    cases hrow : row[j]? <;> simp

theorem cellAt_mem_rasterLabels [DecidableEq α] (R : Raster α) (i j : ℕ) (v : α)
    (h : cellAt R i j = some v) : v ∈ rasterLabels R := by
  rw [rasterLabels, mem_firstDedup, List.mem_filterMap]
  refine ⟨some v, ?_, rfl⟩
  rw [List.mem_flatten]
  simp only [cellAt, List.getD_eq_getElem?_getD] at h
  cases hR : R[i]? with
  | none => rw [hR] at h; simp at h
  | some row =>
    rw [hR] at h
    simp only [Option.getD_some] at h
    cases hj : row[j]? with
    | none => rw [hj] at h; simp at h
    | some c =>
      rw [hj] at h
      simp only [Option.getD_some] at h
      subst h
      exact ⟨row, List.getElem?_mem hR, List.getElem?_mem hj⟩

theorem find_zip_map (L : List α) (f : α → β) (P : α × β → Bool) :
    ((L.zip (L.map f)).find? P).map Prod.fst = L.find? (fun l => P (l, f l)) := by
  induction L with
  | nil => simp
  | cons x xs ih =>
    simp only [List.map_cons, List.zip_cons_cons, List.find?_cons]
    by_cases h : P (x, f x)
    · simp [h]
    · simp only [h, Bool.false_eq_true, if_neg]
      simpa using ih

theorem find_self_of_mem [DecidableEq α] (L : List α) (v : α) (h : v ∈ L) :
    L.find? (fun l => decide (v = l)) = some v := by
  induction L with
  | nil => cases h
  | cons x xs ih =>
    by_cases hx : v = x
    · subst hx; simp [List.find?_cons]
    · have hd : decide (v = x) = false := by simpa using hx
      rw [List.find?_cons, hd]
      rcases List.mem_cons.mp h with rfl | hm
      · exact absurd rfl hx
      · exact ih hm

theorem rasterLabels_nil_cellAt [DecidableEq α] (R : Raster α)
    (h : rasterLabels R = []) (i j : ℕ) : cellAt R i j = none := by
  cases hc : cellAt R i j with
  | none => rfl
  | some v =>
    have := cellAt_mem_rasterLabels R i j v hc
    rw [h] at this
    cases this

theorem cellOf_convert [DecidableEq α] (R : Raster α) (i j : ℕ) :
    cellOf (convert_mask_2d_to_3d R) i j = cellAt R i j := by
  cases hL : rasterLabels R with
  | nil =>
    rw [convert_mask_2d_to_3d, hL]
    simp only [cellOf, List.zip_nil_left, List.find?_nil, Option.map_none]
    exact (rasterLabels_nil_cellAt R hL i j).symm
  | cons l L =>
    rw [convert_mask_2d_to_3d, hL]
    simp only [cellOf]
    rw [find_zip_map]
    have hpred : (fun x => planeAt (planeOf R x) i j) =
        (fun x => decide (cellAt R i j = some x)) := by
      funext x; exact planeAt_planeOf R x i j
    rw [hpred]
    cases hc : cellAt R i j with
    | none =>
      rw [List.find?_eq_none]
      intro x _ hx
      simp at hx
    | some v =>
      have hv : v ∈ l :: L := by
        rw [← hL]; exact cellAt_mem_rasterLabels R i j v hc
      have heq : (fun x => decide (some v = some x)) = (fun x => decide (v = x)) := by
        funext x; simp
      rw [heq]
      exact find_self_of_mem _ v hv

theorem countTrue_convert_le_one [DecidableEq α] (R : Raster α) (i j : ℕ) :
    countTrue (convert_mask_2d_to_3d R) i j ≤ 1 := by
  cases hL : rasterLabels R with
  | nil =>
    rw [convert_mask_2d_to_3d, hL]
    simp [countTrue, List.filter, planeAt_allFalsePlane]
  | cons l L =>
    rw [convert_mask_2d_to_3d, hL]
    simp only [countTrue, List.filter_map, List.length_map]
    have hpred : ((fun p => planeAt p i j) ∘ planeOf R) =
        (fun x => decide (cellAt R i j = some x)) := by
      funext x; exact planeAt_planeOf R x i j
    rw [hpred]
    cases hc : cellAt R i j with
    | none => simp
    | some v =>
      have : (fun x => decide (some v = some x)) = (fun x => decide (x = v)) := by
        funext x; simp [eq_comm]
      rw [this]
      have hcount : (List.filter (fun x => decide (x = v)) (l :: L)).length
          = (l :: L).count v := by
        rw [List.count, List.countP_eq_length_filter]
        congr 1
      rw [hcount]
      have hnd : (l :: L).Nodup := by rw [← hL]; exact nodup_firstDedup _
      exact List.nodup_iff_count_le_one.mp hnd v

theorem hasOverlap_convert [DecidableEq α] (R : Raster α) :
    hasOverlap (convert_mask_2d_to_3d R) = false := by
  rw [← Bool.not_eq_true, hasOverlap, List.any_eq_true]
  rintro ⟨i, -, hj⟩
  rw [List.any_eq_true] at hj
  rcases hj with ⟨j, -, hj⟩
  rw [decide_eq_true_iff] at hj
  exact absurd (countTrue_convert_le_one R i j) (by omega)

theorem headD_convert [DecidableEq α] (R : Raster α) :
    ∃ g : Option α → Bool,
      (convert_mask_2d_to_3d R).planes.headD [] = R.map (fun row => row.map g) := by
  cases hL : rasterLabels R with
  | nil =>
    rw [convert_mask_2d_to_3d, hL]
    exact ⟨fun _ => false, rfl⟩
  | cons l L =>
    rw [convert_mask_2d_to_3d, hL]
    exact ⟨fun c => decide (c = some l), rfl⟩

theorem recombine_eq_of (S : MaskStack α) (R : Raster α) (g : Option α → Bool)
    (ht : S.planes.headD [] = R.map (fun row => row.map g))
    (hc : ∀ i j, cellOf S i j = cellAt R i j) :
    recombine S = R := by
  unfold recombine
  rw [ht]
  apply List.ext_getElem
  · simp
  · intro i h1 h2
    simp only [List.length_map, List.length_range] at h1
    rw [List.getElem_map, List.getElem_range]
    have hRi : (R.map (fun row => row.map g)).getD i [] = R[i].map g := by
      rw [List.getD_eq_getElem?_getD, List.getElem?_map, List.getElem?_eq_getElem h2]
      simp
    rw [hRi]
    apply List.ext_getElem
    · simp
    · intro j hj1 hj2
      simp only [List.length_map, List.length_range] at hj1
      rw [List.getElem_map, List.getElem_range, hc i j]
      simp only [cellAt, List.getD_eq_getElem?_getD]
      rw [List.getElem?_eq_getElem h2]
      simp only [Option.getD_some]
      rw [List.getElem?_eq_getElem hj2]
      simp

theorem le_foldr_max (f : β → ℕ) (l : List β) (x : β) (hx : x ∈ l) :
    f x ≤ l.foldr (fun a m => max (f a) m) 0 := by
  induction l with
  | nil => cases hx
  | cons y ys ih =>
    rcases List.mem_cons.mp hx with rfl | hm
    · exact le_max_left _ _
    · exact le_trans (ih hm) (le_max_right _ _)

theorem planeAt_true_lt (p : List (List Bool)) (i j : ℕ) (h : planeAt p i j = true) :
    i < p.length ∧ j < (p.getD i []).length := by
  unfold planeAt at h
  by_cases hi : i < p.length
  · refine ⟨hi, ?_⟩
    by_cases hj : j < (p.getD i []).length
    · exact hj
    · rw [List.getD_eq_default _ _ (le_of_not_lt hj)] at h
      cases h
  · rw [List.getD_eq_default _ _ (le_of_not_lt hi)] at h
    simp [List.getD] at h

theorem hasOverlap_of_countTrue (S : MaskStack α) (i j : ℕ)
    (h : 2 ≤ countTrue S i j) : hasOverlap S = true := by
  have hne : S.planes.filter (fun p => planeAt p i j) ≠ [] := by
    intro hnil
    rw [countTrue, hnil] at h
    simp at h
  obtain ⟨p, hp⟩ := List.exists_mem_of_ne_nil _ hne
  have hmem := (List.mem_filter.mp hp).1
  have htrue : planeAt p i j = true := (List.mem_filter.mp hp).2
  obtain ⟨hi, hj⟩ := planeAt_true_lt p i j htrue
  have hrow : i < planesRows S :=
    lt_of_lt_of_le hi (le_foldr_max List.length S.planes p hmem)
  have hcol : j < planesCols S := by
    refine lt_of_lt_of_le ?_
      (le_foldr_max (fun r => r.foldr (fun r' k => max r'.length k) 0) S.planes p hmem)
    rw [List.getD_eq_getElem _ _ hi] at hj
    exact lt_of_lt_of_le hj (le_foldr_max List.length p _ (List.getElem_mem hi))
  rw [hasOverlap, List.any_eq_true]
  refine ⟨i, List.mem_range.mpr hrow, ?_⟩
  rw [List.any_eq_true]
  exact ⟨j, List.mem_range.mpr hcol, decide_eq_true h⟩

/-- C1: for every labeled 2D raster (each cell unset or carrying exactly one
label, the all-empty raster included), converting with
`convert_mask_2d_to_3d` and back with `convert_mask_3d_to_2d` returns the
original raster unchanged. -/
theorem mask_2d_3d_2d_roundtrip [DecidableEq α] (R : Raster α) :
    convert_mask_3d_to_2d (convert_mask_2d_to_3d R) = Except.ok R := by
  rw [convert_mask_3d_to_2d, hasOverlap_convert R]
  simp only [Bool.false_eq_true, if_neg]
  obtain ⟨g, hg⟩ := headD_convert R
  rw [recombine_eq_of (convert_mask_2d_to_3d R) R g hg (cellOf_convert R)]
  simp

/-- C2: for every one-hot mask stack in which some cell has two or more
planes true, `convert_mask_3d_to_2d` fails with the overlap ValueError
instead of producing a raster. -/
theorem mask_3d_to_2d_overlap_error (S : MaskStack α)
    (h : ∃ i j, 2 ≤ countTrue S i j) :
    convert_mask_3d_to_2d S = Except.error "Overlapping regions detected" := by
  obtain ⟨i, j, hle⟩ := h
  rw [convert_mask_3d_to_2d, hasOverlap_of_countTrue S i j hle]
  simp

/-- Witness for C2: a two-plane stack with both planes true at cell (0, 0)
is rejected by `convert_mask_3d_to_2d`. -/
theorem mask_3d_to_2d_overlap_error_witness :
    convert_mask_3d_to_2d (⟨[1, 2], [[[true]], [[true]]]⟩ : MaskStack ℕ)
      = Except.error "Overlapping regions detected" :=
  mask_3d_to_2d_overlap_error _ ⟨0, 0, by decide⟩

/-! ## RecordLineReader tokenizer and numeric conversion

The record reader (`EvParserBase.read_line`) and the built-in Python numeric
conversions are not in the source snapshot; they are modelled from spec
section 4.2. -/

/-- Modelled from the spec: whitespace tokenization of one record line
(`read_line` with split true); `acc` holds the current token reversed. -/
def splitWSAux : List Char → List Char → List String
  | [], acc => if acc.isEmpty then [] else [String.mk acc.reverse]
  | c :: cs, acc =>
    if c = ' ' then
      if acc.isEmpty then splitWSAux cs [] else String.mk acc.reverse :: splitWSAux cs []
    else splitWSAux cs (c :: acc)

/-- Modelled from the spec: the whitespace tokens of a record line. -/
def tokens (s : String) : List String := splitWSAux s.data []

/-- Numeric value of a decimal digit character. -/
def digitVal (c : Char) : Option ℕ :=
  if '0' ≤ c ∧ c ≤ '9' then some (c.toNat - 48) else none

/-- Accumulating decimal reader over a character list. -/
def parseNatAux : List Char → ℕ → Option ℕ
  | [], acc => some acc
  | c :: cs, acc =>
    match digitVal c with
    | some d => parseNatAux cs (acc * 10 + d)
    | none => none

/-- Parse a nonempty all-digit character list as a natural number. -/
def parseNatList : List Char → Option ℕ
  | [] => none
  | cs => parseNatAux cs 0

/-- Modelled from the spec: the integer conversion the Python int() builtin applies to
count lines (optional sign then decimal digits). -/
def parseInt (s : String) : Option ℤ :=
  match s.data with
  | '-' :: rest => (parseNatList rest).map (fun n => -(n : ℤ))
  | '+' :: rest => (parseNatList rest).map (fun n => (n : ℤ))
  | cs => (parseNatList cs).map (fun n => (n : ℤ))

/-! ## LineFileParser (src/echoregions/convert/evl_parser.py) -/

/-- File metadata built from the three header tokens. -/
structure FileMetadata where
  filetype : String
  file_format_number : String
  echoview_version : String
  deriving Repr, DecidableEq

/-- One EVL time point: composite timestamp `x`, depth `y` (the original
token, or the caller-supplied replacement value), and the status token. -/
structure EvlPoint (ρ : Type) where
  x : String
  y : String ⊕ ρ
  status : String
  deriving Repr, DecidableEq

/-- The point loop of `LineParser._parse`: reads `n` records of four
whitespace tokens (date, time, depth, status); a depth token lexically equal
to the sentinel -10000.990000 is replaced by the supplied value when one was
supplied. -/
def readEvlPoints (rv : Option ρ) : ℕ → List String → Option (List (EvlPoint ρ) × List String)
  | 0, rest => some ([], rest)
  | _ + 1, [] => none
  | n + 1, line :: rest =>
    match tokens line with
    | [date, time, depth, status] =>
      let y : String ⊕ ρ :=
        match rv with
        | some v => if depth = "-10000.990000" then Sum.inr v else Sum.inl depth
        | none => Sum.inl depth
      match readEvlPoints rv n rest with
      | some (pts, rest2) =>
          some (⟨"D" ++ date ++ "T" ++ time, y, status⟩ :: pts, rest2)
      | none => none
    | _ => none

/-- `LineParser._parse`: a three-token header, an integer point count, then
that many point records. -/
def lineParse (rv : Option ρ) (lines : List String) :
    Option (FileMetadata × List (EvlPoint ρ)) :=
  match lines with
  | header :: countLine :: rest =>
    match tokens header with
    | ft :: ffn :: ev :: _ =>
      match parseInt countLine with
      | some n =>
        match readEvlPoints rv n.toNat rest with
        | some (pts, _) => some (⟨ft, ffn, ev⟩, pts)
        | none => none
      | none => none
    | _ => none
  | _ => none

theorem readEvlPoints_spec (rv : Option ρ) :
    ∀ (n : ℕ) (ls : List String) (pts : List (EvlPoint ρ)) (rest : List String),
      readEvlPoints rv n ls = some (pts, rest) →
      pts.length = n ∧
      ∀ i (hi : i < pts.length),
        ∃ date time depth status,
          tokens (ls.getD i "") = [date, time, depth, status] ∧
          pts[i] = ⟨"D" ++ date ++ "T" ++ time,
            (match rv with
             | some v => if depth = "-10000.990000" then Sum.inr v else Sum.inl depth
             | none => Sum.inl depth), status⟩ := by
  intro n
  induction n with
  | zero =>
    intro ls pts rest h
    simp only [readEvlPoints, Option.some_inj, Prod.mk.injEq] at h
    obtain ⟨rfl, rfl⟩ := h
    exact ⟨rfl, fun i hi => absurd hi (by simp)⟩
  | succ n ih =>
    intro ls pts rest h
    cases ls with
    | nil => simp [readEvlPoints] at h
    | cons line rest' =>
      simp only [readEvlPoints] at h
      split at h
      · next date time depth status htok =>
        split at h
        · next pts' rest2 hrec =>
          simp only [Option.some_inj, Prod.mk.injEq] at h
          obtain ⟨rfl, rfl⟩ := h
          obtain ⟨hlen, hspec⟩ := ih rest' pts' rest2 hrec
          refine ⟨by simp [hlen], ?_⟩
          intro i hi
          cases i with
          | zero =>
            exact ⟨date, time, depth, status, by simpa using htok, by simp⟩
          | succ i' =>
            have hi' : i' < pts'.length := by
              simpa using Nat.lt_of_succ_lt_succ hi
            obtain ⟨d, t, dep, st, htok', hpt⟩ := hspec i' hi'
            exact ⟨d, t, dep, st, by simpa using htok', by simpa using hpt⟩
        · exact absurd h (by simp)
      · exact absurd h (by simp)

/-- C3: every point parsed by `LineParser._parse` keeps the status token
unchanged and gets timestamp D{date}T{time}; its depth is the supplied
replacement value exactly when a replacement was supplied and the depth token
is lexically -10000.990000, and the unchanged depth token otherwise; and the
literal one-point file with header EVL 7 1.0.0 and replacement 0 parses to a
single point with depth 0 and status token 1 (unverified). -/
theorem evl_parse_depth_substitution :
    (∀ (ρ : Type) (rv : Option ρ) (lines : List String) md pts,
      lineParse rv lines = some (md, pts) →
      ∀ i (hi : i < pts.length),
        ∃ date time depth status,
          tokens (lines.getD (i + 2) "") = [date, time, depth, status] ∧
          pts[i].x = "D" ++ date ++ "T" ++ time ∧
          pts[i].status = status ∧
          ((∃ v, rv = some v ∧ depth = "-10000.990000" ∧ pts[i].y = Sum.inr v) ∨
           ((rv = none ∨ depth ≠ "-10000.990000") ∧ pts[i].y = Sum.inl depth))) ∧
    lineParse (some (0 : ℚ)) ["EVL 7 1.0.0", "1", "20170625 1539223320 -10000.990000 1"]
      = some (⟨"EVL", "7", "1.0.0"⟩, [⟨"D20170625T1539223320", Sum.inr 0, "1"⟩]) := by
  constructor
  · intro ρ rv lines md pts h i hi
    cases lines with
    | nil => simp [lineParse] at h
    | cons header rest0 =>
      cases rest0 with
      | nil => simp [lineParse] at h
      | cons countLine rest =>
        simp only [lineParse] at h
        split at h
        · next ft ffn ev extra htok =>
          split at h
          · next nval hn =>
            split at h
            · next pts0 rest2 hrec =>
              simp only [Option.some_inj, Prod.mk.injEq] at h
              obtain ⟨hmd, rfl⟩ := h
              obtain ⟨hlen, hspec⟩ := readEvlPoints_spec rv nval.toNat rest pts0 rest2 hrec
              obtain ⟨date, time, depth, status, htoki, hpt⟩ := hspec i hi
              refine ⟨date, time, depth, status, ?_, ?_, ?_, ?_⟩
              · simpa using htoki
              · rw [hpt]
              · rw [hpt]
              · cases rv with
                | none => exact Or.inr ⟨Or.inl rfl, by rw [hpt]⟩
                | some v =>
                  by_cases hdep : depth = "-10000.990000"
                  · exact Or.inl ⟨v, rfl, hdep, by rw [hpt]; simp [hdep]⟩
                  · exact Or.inr ⟨Or.inr hdep, by rw [hpt]; simp [hdep]⟩
            · exact absurd h (by simp)
          · exact absurd h (by simp)
        · exact absurd h (by simp)
  · rfl

/-- Witness for C3: the general part of the theorem applied to the literal
scenario file at point index 0. -/
theorem evl_parse_depth_substitution_witness :
    ∃ date time depth status,
      tokens ((["EVL 7 1.0.0", "1", "20170625 1539223320 -10000.990000 1"] :
          List String).getD (0 + 2) "") = [date, time, depth, status] ∧
      ([(⟨"D20170625T1539223320", Sum.inr 0, "1"⟩ : EvlPoint ℚ)])[0].x
        = "D" ++ date ++ "T" ++ time ∧
      ([(⟨"D20170625T1539223320", Sum.inr 0, "1"⟩ : EvlPoint ℚ)])[0].status = status ∧
      ((∃ v, (some (0 : ℚ)) = some v ∧ depth = "-10000.990000" ∧
          ([(⟨"D20170625T1539223320", Sum.inr 0, "1"⟩ : EvlPoint ℚ)])[0].y = Sum.inr v) ∨
       (((some (0 : ℚ)) = none ∨ depth ≠ "-10000.990000") ∧
          ([(⟨"D20170625T1539223320", Sum.inr 0, "1"⟩ : EvlPoint ℚ)])[0].y = Sum.inl depth)) :=
  evl_parse_depth_substitution.1 ℚ (some 0)
    ["EVL 7 1.0.0", "1", "20170625 1539223320 -10000.990000 1"]
    ⟨"EVL", "7", "1.0.0"⟩ [⟨"D20170625T1539223320", Sum.inr 0, "1"⟩]
    evl_parse_depth_substitution.2 0 (by decide)

/-! ## RegionFileParser (src/echoregions/convert/evr_parser.py) -/

/-- The mutable depth-bound pair of one Region2DParser instance. -/
structure ParserState where
  min_depth : Option ℚ
  max_depth : Option ℚ
  deriving Repr, DecidableEq

/-- The max_depth property setter: rejects a value at or below a currently
set min_depth, otherwise stores the value. -/
def setMaxDepth (st : ParserState) (v : ℚ) : Except String ParserState :=
  match st.min_depth with
  | some m =>
      if v ≤ m then Except.error "max_depth cannot be less than min_depth"
      else Except.ok { st with max_depth := some v }
  | none => Except.ok { st with max_depth := some v }

/-- The min_depth property setter: rejects a value at or above a currently
set max_depth, otherwise stores the value. -/
def setMinDepth (st : ParserState) (v : ℚ) : Except String ParserState :=
  match st.max_depth with
  | some m =>
      if v ≥ m then Except.error "min_depth cannot be greater than max_depth"
      else Except.ok { st with min_depth := some v }
  | none => Except.ok { st with min_depth := some v }

/-- The depth conversion inside `_points_to_dict`: with range-edge conversion
requested, a depth token lexically equal to 9999.9900000000 becomes the set
max_depth bound, -9999.9900000000 the set min_depth bound, and the token is
kept unchanged when the relevant bound is unset. -/
def convertY (cre : Bool) (st : ParserState) (y : String) : String ⊕ ℚ :=
  if cre then
    if y = "9999.9900000000" then
      match st.max_depth with
      | some v => Sum.inr v
      | none => Sum.inl y
    else if y = "-9999.9900000000" then
      match st.min_depth with
      | some v => Sum.inr v
      | none => Sum.inl y
    else Sum.inl y
  else Sum.inl y

/-- `_points_to_dict`: consumes the points tokens in consecutive groups of
three (date, time, depth), building the composite timestamp and the converted
depth; a token count not divisible by three is an index error. -/
def pointsToDict (cre : Bool) (st : ParserState) :
    List String → Option (List (String × (String ⊕ ℚ)))
  | [] => some []
  | date :: time :: depth :: rest =>
    match pointsToDict cre st rest with
    | some ps => some (("D" ++ date ++ "T" ++ time, convertY cre st depth) :: ps)
    | none => none
  | _ => none

/-- The positional 13-token region-header mapping of
`_region_metadata_to_dict` (region id excluded: it becomes the map key). -/
structure RegionMetadata where
  structure_version : String
  point_count : String
  selected : String
  creation_type : String
  dummy : String
  bounding_rectangle_calculated : String
  bounding_rectangle_left_x : String
  bounding_rectangle_top_y : String
  bounding_rectangle_right_x : String
  bounding_rectangle_bottom_y : String
  deriving Repr, DecidableEq

/-- Everything `_parse` stores for one region id: the header metadata, the
verbatim note and detection-setting lines, the classification line, the
region type popped off the points line, the points, and the name line. -/
structure RegionData where
  metadata : RegionMetadata
  notes : List String
  detection_settings : List String
  classification : String
  rtype : String
  points : List (String × (String ⊕ ℚ))
  name : String
  deriving Repr, DecidableEq

/-- Read `n` verbatim lines (the note and detection-setting loops). -/
def takeN : ℕ → List String → Option (List String × List String)
  | 0, ls => some ([], ls)
  | _ + 1, [] => none
  | n + 1, l :: ls =>
    match takeN n ls with
    | some (a, r) => some (l :: a, r)
    | none => none

/-- One region block of `Region2DParser._parse`: blank separator, region
header of at least 13 tokens (token index 2 is the region id), note count and
notes, detection-setting count and settings, classification line, points line
whose trailing token is popped as the region type, then the name line. -/
def parseRegionBlock (cre : Bool) (st : ParserState) (lines : List String) :
    Option ((String × RegionData) × List String) :=
  match lines with
  | _blank :: metaLine :: rest =>
    match tokens metaLine with
    | sv :: pc :: rid :: sel :: ct :: dm :: brc :: d1 :: t1 :: topy :: d2 :: t2 :: boty :: _ =>
      match rest with
      | ncLine :: rest2 =>
        match parseInt ncLine with
        | some nc =>
          match takeN nc.toNat rest2 with
          | some (notes, rest3) =>
            match rest3 with
            | dcLine :: rest4 =>
              match parseInt dcLine with
              | some dc =>
                match takeN dc.toNat rest4 with
                | some (dets, rest5) =>
                  match rest5 with
                  | classLine :: ptsLine :: nameLine :: rest6 =>
                    match (tokens ptsLine).getLast? with
                    | some ty =>
                      match pointsToDict cre st (tokens ptsLine).dropLast with
                      | some pts =>
                        some ((rid,
                          { metadata :=
                              { structure_version := sv
                              , point_count := pc
                              , selected := sel
                              , creation_type := ct
                              , dummy := dm
                              , bounding_rectangle_calculated := brc
                              , bounding_rectangle_left_x := "D" ++ d1 ++ "T" ++ t1
                              , bounding_rectangle_top_y := topy
                              , bounding_rectangle_right_x := "D" ++ d2 ++ "T" ++ t2
                              , bounding_rectangle_bottom_y := boty }
                          , notes := notes
                          , detection_settings := dets
                          , classification := classLine
                          , rtype := ty
                          , points := pts
                          , name := nameLine }), rest6)
                      | none => none
                    | none => none
                  | _ => none
                | none => none
              | none => none
            | _ => none
          | none => none
        | none => none
      | _ => none
    | _ => none
  | _ => none

/-- Insert or overwrite one key in an insertion-ordered association list
(Python dict assignment keeps the first-insertion position). -/
def upsert (k : String) (v : β) : List (String × β) → List (String × β)
  | [] => [(k, v)]
  | (k', v') :: rest => if k' = k then (k, v) :: rest else (k', v') :: upsert k v rest

/-- Lookup in an insertion-ordered association list. -/
def assocLookup (k : String) : List (String × β) → Option β
  | [] => none
  | (k', v) :: rest => if k' = k then some v else assocLookup k rest

/-- The region loop of `Region2DParser._parse`, writing each parsed block
into the mapping keyed by region id. -/
def parseRegions (cre : Bool) (st : ParserState) :
    ℕ → List String → List (String × RegionData) →
    Option (List (String × RegionData) × List String)
  | 0, ls, acc => some (acc, ls)
  | n + 1, ls, acc =>
    match parseRegionBlock cre st ls with
    | some ((rid, rd), rest) => parseRegions cre st n rest (upsert rid rd acc)
    | none => none

/-- The same loop collecting the parsed blocks in file order without the
mapping, to speak about files whose blocks repeat a region id. -/
def parseRegionsRaw (cre : Bool) (st : ParserState) :
    ℕ → List String → Option (List (String × RegionData) × List String)
  | 0, ls => some ([], ls)
  | n + 1, ls =>
    match parseRegionBlock cre st ls with
    | some (b, rest) =>
      match parseRegionsRaw cre st n rest with
      | some (bs, rest2) => some (b :: bs, rest2)
      | none => none
    | none => none

/-- `Region2DParser._parse`: a three-token header, an integer region count,
then that many region blocks. -/
def evrParse (cre : Bool) (st : ParserState) (lines : List String) :
    Option (FileMetadata × List (String × RegionData)) :=
  match lines with
  | header :: countLine :: rest =>
    match tokens header with
    | ft :: ffn :: ev :: _ =>
      match parseInt countLine with
      | some n =>
        match parseRegions cre st n.toNat rest [] with
        | some (regions, _) => some (⟨ft, ffn, ev⟩, regions)
        | none => none
      | none => none
    | _ => none
  | _ => none

theorem getD_cons3 (a b c : String) (l : List String) (n : ℕ) :
    (a :: b :: c :: l).getD (n + 3) "" = l.getD n "" := by
  rw [show n + 3 = n + 1 + 1 + 1 from by ring]
  simp [List.getD_cons_succ]

theorem pointsToDict_spec (cre : Bool) (st : ParserState) :
    ∀ (ps : List (String × (String ⊕ ℚ))) (toks : List String),
      pointsToDict cre st toks = some ps →
      toks.length = 3 * ps.length ∧
      ∀ i (hi : i < ps.length),
        ps[i].1 = "D" ++ toks.getD (3 * i) "" ++ "T" ++ toks.getD (3 * i + 1) "" ∧
        ps[i].2 = convertY cre st (toks.getD (3 * i + 2) "") := by
  intro ps
  induction ps with
  | nil =>
    intro toks h
    match toks with
    | [] => exact ⟨rfl, fun i hi => absurd hi (by simp)⟩
    | [d] => simp [pointsToDict] at h
    | [d, t] => simp [pointsToDict] at h
    | d :: t :: dep :: rest =>
      simp only [pointsToDict] at h
      split at h
      · simp at h
      · cases h
  | cons p tail ih =>
    intro toks h
    match toks with
    | [] => simp [pointsToDict] at h
    | [d] => simp [pointsToDict] at h
    | [d, t] => simp [pointsToDict] at h
    | d :: t :: dep :: rest =>
      simp only [pointsToDict] at h
      split at h
      · next ps0 hrec =>
        simp only [Option.some_inj, List.cons.injEq] at h
        obtain ⟨rfl, rfl⟩ := h
        obtain ⟨hlen, hspec⟩ := ih rest hrec
        constructor
        · simp only [List.length_cons, hlen]; ring
        · intro i hi
          cases i with
          | zero => exact ⟨rfl, rfl⟩
          | succ i' =>
            obtain ⟨hsp1, hsp2⟩ := hspec i' (Nat.lt_of_succ_lt_succ hi)
            have e0 : 3 * (i' + 1) = 3 * i' + 3 := by ring
            have e1 : 3 * (i' + 1) + 1 = (3 * i' + 1) + 3 := by ring
            have e2 : 3 * (i' + 1) + 2 = (3 * i' + 2) + 3 := by ring
            refine ⟨?_, ?_⟩
            · simp only [List.getElem_cons_succ, e0, e1, getD_cons3]
              exact hsp1
            · simp only [List.getElem_cons_succ, e2, getD_cons3]
              exact hsp2
      · cases h

theorem pointsToDict_isSome (cre cre' : Bool) (st st' : ParserState) :
    ∀ toks : List String,
      (pointsToDict cre st toks).isSome = (pointsToDict cre' st' toks).isSome
  | [] => rfl
  | [_] => rfl
  | [_, _] => rfl
  | _ :: _ :: _ :: rest => by
    simp only [pointsToDict]
    have := pointsToDict_isSome cre cre' st st' rest
    cases h : pointsToDict cre st rest <;> cases h' : pointsToDict cre' st' rest <;>
      simp_all

/-- C4: with range-edge substitution requested, every parsed region point
whose depth token is lexically 9999.9900000000 gets the numeric max_depth
bound when that bound is set and keeps the sentinel token otherwise;
symmetrically for -9999.9900000000 and min_depth; every other depth token
passes through unchanged; and whether the points parse succeeds never depends
on the bounds (no error when a bound is unset). -/
theorem evr_range_edge_substitution :
    (∀ (st : ParserState) (toks : List String) ps,
      pointsToDict true st toks = some ps →
      ∀ i (hi : i < ps.length),
        ∃ y, toks.getD (3 * i + 2) "" = y ∧
          (y = "9999.9900000000" →
            (∀ v, st.max_depth = some v → ps[i].2 = Sum.inr v) ∧
            (st.max_depth = none → ps[i].2 = Sum.inl y)) ∧
          (y = "-9999.9900000000" →
            (∀ v, st.min_depth = some v → ps[i].2 = Sum.inr v) ∧
            (st.min_depth = none → ps[i].2 = Sum.inl y)) ∧
          (y ≠ "9999.9900000000" → y ≠ "-9999.9900000000" → ps[i].2 = Sum.inl y)) ∧
    (∀ (cre cre' : Bool) (st st' : ParserState) (toks : List String),
      (pointsToDict cre st toks).isSome = (pointsToDict cre' st' toks).isSome) := by
  constructor
  · intro st toks ps h i hi
    obtain ⟨-, hspec⟩ := pointsToDict_spec true st ps toks h
    obtain ⟨-, hy2⟩ := hspec i hi
    refine ⟨toks.getD (3 * i + 2) "", rfl, ?_, ?_, ?_⟩
    · rintro hy
      rw [hy2, hy]
      constructor
      · intro v hv
        simp only [convertY]
        simp [hv]
      · intro hv
        simp only [convertY]
        simp [hv]
    · rintro hy
      rw [hy2, hy]
      have hne : ("-9999.9900000000" : String) ≠ "9999.9900000000" := by decide
      constructor
      · intro v hv
        simp only [convertY]
        simp [hne, hv]
      · intro hv
        simp only [convertY]
        simp [hne, hv]
    · intro h1 h2
      simp only [List.getD_eq_getElem?_getD] at h1 h2
      rw [hy2]
      simp [convertY, h1, h2]
  · exact fun cre cre' st st' toks => pointsToDict_isSome cre cre' st st' toks

/-- Witness for C4: the substitution part applied to a one-point token list
carrying the upper sentinel, with max_depth set to 5. -/
theorem evr_range_edge_substitution_witness :
    ∃ y, (["20170625", "1539223320", "9999.9900000000"] : List String).getD (3 * 0 + 2) "" = y ∧
      (y = "9999.9900000000" →
        (∀ v, (⟨none, some 5⟩ : ParserState).max_depth = some v →
          ([("D20170625T1539223320", Sum.inr 5)] :
            List (String × (String ⊕ ℚ)))[0].2 = Sum.inr v) ∧
        ((⟨none, some 5⟩ : ParserState).max_depth = none →
          ([("D20170625T1539223320", Sum.inr 5)] :
            List (String × (String ⊕ ℚ)))[0].2 = Sum.inl y)) ∧
      (y = "-9999.9900000000" →
        (∀ v, (⟨none, some 5⟩ : ParserState).min_depth = some v →
          ([("D20170625T1539223320", Sum.inr 5)] :
            List (String × (String ⊕ ℚ)))[0].2 = Sum.inr v) ∧
        ((⟨none, some 5⟩ : ParserState).min_depth = none →
          ([("D20170625T1539223320", Sum.inr 5)] :
            List (String × (String ⊕ ℚ)))[0].2 = Sum.inl y)) ∧
      (y ≠ "9999.9900000000" → y ≠ "-9999.9900000000" →
        ([("D20170625T1539223320", Sum.inr 5)] :
          List (String × (String ⊕ ℚ)))[0].2 = Sum.inl y) :=
  evr_range_edge_substitution.1 ⟨none, some 5⟩
    ["20170625", "1539223320", "9999.9900000000"]
    [("D20170625T1539223320", Sum.inr 5)] (by rfl) 0 (by decide)

/-- C5: a max_depth setter call at or below a set min_depth (and a min_depth
call at or above a set max_depth) fails with the ValueError and, the model
being functional, leaves both stored bounds untouched; every other setter
call succeeds and rewrites only the targeted bound. -/
theorem depth_bound_setters :
    (∀ (st : ParserState) (v m : ℚ), st.min_depth = some m → v ≤ m →
      setMaxDepth st v = Except.error "max_depth cannot be less than min_depth") ∧
    (∀ (st : ParserState) (v M : ℚ), st.max_depth = some M → M ≤ v →
      setMinDepth st v = Except.error "min_depth cannot be greater than max_depth") ∧
    (∀ (st : ParserState) (v : ℚ), (∀ m, st.min_depth = some m → m < v) →
      setMaxDepth st v = Except.ok { st with max_depth := some v }) ∧
    (∀ (st : ParserState) (v : ℚ), (∀ M, st.max_depth = some M → v < M) →
      setMinDepth st v = Except.ok { st with min_depth := some v }) := by
  refine ⟨?_, ?_, ?_, ?_⟩
  · intro st v m hm hle
    rw [setMaxDepth, hm]
    simp [hle]
  · intro st v M hM hle
    rw [setMinDepth, hM]
    simp [ge_iff_le, hle]
  · intro st v hok
    rw [setMaxDepth]
    cases hm : st.min_depth with
    | none => rfl
    | some m =>
      have hlt := hok m hm
      simp [not_le.mpr hlt]
  · intro st v hok
    rw [setMinDepth]
    cases hM : st.max_depth with
    | none => rfl
    | some M =>
      have hlt := hok M hM
      simp [ge_iff_le, not_le.mpr hlt]

/-- Witness for C5: the four setter behaviors at the concrete bound pair
min_depth 5, max_depth 10. -/
theorem depth_bound_setters_witness :
    setMaxDepth ⟨some 5, some 10⟩ 3
      = Except.error "max_depth cannot be less than min_depth" ∧
    setMinDepth ⟨some 5, some 10⟩ 12
      = Except.error "min_depth cannot be greater than max_depth" ∧
    setMaxDepth ⟨some 5, some 10⟩ 7 = Except.ok ⟨some 5, some 7⟩ ∧
    setMinDepth ⟨some 5, some 10⟩ 2 = Except.ok ⟨some 2, some 10⟩ :=
  ⟨depth_bound_setters.1 ⟨some 5, some 10⟩ 3 5 rfl (by norm_num),
   depth_bound_setters.2.1 ⟨some 5, some 10⟩ 12 10 rfl (by norm_num),
   depth_bound_setters.2.2.1 ⟨some 5, some 10⟩ 7
     (by intro m hm; cases hm; norm_num),
   depth_bound_setters.2.2.2 ⟨some 5, some 10⟩ 2
     (by intro M hM; cases hM; norm_num)⟩

theorem takeN_append (l r : List String) : takeN l.length (l ++ r) = some (l, r) := by
  induction l with
  | nil => rfl
  | cons x xs ih => simp [takeN, ih]

theorem pointsToDict_of_length (cre : Bool) (st : ParserState) :
    ∀ (k : ℕ) (toks : List String), toks.length = 3 * k →
      ∃ ps, pointsToDict cre st toks = some ps ∧ ps.length = k := by
  intro k
  induction k with
  | zero =>
    intro toks h
    have h0 : toks = [] := List.length_eq_zero.mp (by omega)
    subst h0
    exact ⟨[], rfl, rfl⟩
  | succ k ih =>
    intro toks h
    cases toks with
    | nil =>
      rw [List.length_nil] at h
      exact absurd h (by omega)
    | cons a t1 =>
      cases t1 with
      | nil =>
        rw [List.length_cons, List.length_nil] at h
        exact absurd h (by omega)
      | cons b t2 =>
        cases t2 with
        | nil =>
          rw [List.length_cons, List.length_cons, List.length_nil] at h
          exact absurd h (by omega)
        | cons c rest =>
          have hr : rest.length = 3 * k := by
            simp only [List.length_cons] at h
            omega
          obtain ⟨ps, hps, hlen⟩ := ih rest hr
          exact ⟨("D" ++ a ++ "T" ++ b, convertY cre st c) :: ps,
            by simp only [pointsToDict, hps], by simp [hlen]⟩

/-- C6: a region block whose points line tokenizes into 3k+1 tokens parses
with the trailing token stored as the region type and the remaining 3k tokens
consumed in consecutive groups of three, yielding exactly k points, the whole
block keyed by token index 2 of the region-header line. -/
theorem evr_points_line_structure :
    ∀ (cre : Bool) (st : ParserState)
      (blank metaLine ncLine dcLine classLine ptsLine nameLine : String)
      (notes dets restL : List String)
      (sv pc rid sel ct dm brc d1 t1 topy d2 t2 boty : String)
      (extra : List String) (k : ℕ),
      tokens metaLine = sv :: pc :: rid :: sel :: ct :: dm :: brc ::
        d1 :: t1 :: topy :: d2 :: t2 :: boty :: extra →
      parseInt ncLine = some (notes.length : ℤ) →
      parseInt dcLine = some (dets.length : ℤ) →
      (tokens ptsLine).length = 3 * k + 1 →
      ∃ rd : RegionData,
        parseRegionBlock cre st
          (blank :: metaLine :: ncLine :: (notes ++ dcLine :: (dets ++
            classLine :: ptsLine :: nameLine :: restL)))
          = some ((rid, rd), restL) ∧
        (tokens ptsLine).getLast? = some rd.rtype ∧
        rd.points.length = k := by
  intro cre st blank metaLine ncLine dcLine classLine ptsLine nameLine notes dets restL
    sv pc rid sel ct dm brc d1 t1 topy d2 t2 boty extra k htok hnc hdc hlen
  have hne : tokens ptsLine ≠ [] := by
    intro h0; rw [h0] at hlen; simp at hlen
  obtain ⟨ty, hty⟩ := Option.isSome_iff_exists.mp (List.getLast?_isSome.mpr hne)
  have hdrop : (tokens ptsLine).dropLast.length = 3 * k := by
    rw [List.length_dropLast, hlen]; omega
  obtain ⟨ps, hps, hpslen⟩ := pointsToDict_of_length cre st k _ hdrop
  refine ⟨⟨⟨sv, pc, sel, ct, dm, brc, "D" ++ d1 ++ "T" ++ t1, topy,
      "D" ++ d2 ++ "T" ++ t2, boty⟩, notes, dets, classLine, ty, ps, nameLine⟩,
    ?_, ?_, ?_⟩
  · simp only [parseRegionBlock, htok, hnc, hdc, Int.toNat_natCast, takeN_append,
      hty, hps]
  · exact hty
  · exact hpslen

/-- Witness for C6: a concrete single-region block whose points line has four
tokens ending in type code 1 parses to one point and region type 1. -/
theorem evr_points_line_structure_witness :
    ∃ rd : RegionData,
      parseRegionBlock false ⟨none, none⟩
        ("" :: "13 1 7 0 2 -1 1 20170625 1000000000 5.0 20170625 1100000000 10.0" ::
          "0" :: ([] ++ "0" :: ([] ++ "Unclassified regions" ::
            "20170625 1000000000 5.0 1" :: "Region1" :: [])))
        = some (("7", rd), []) ∧
      (tokens "20170625 1000000000 5.0 1").getLast? = some rd.rtype ∧
      rd.points.length = 1 :=
  evr_points_line_structure false ⟨none, none⟩
    "" "13 1 7 0 2 -1 1 20170625 1000000000 5.0 20170625 1100000000 10.0"
    "0" "0" "Unclassified regions" "20170625 1000000000 5.0 1" "Region1"
    [] [] [] "13" "1" "7" "0" "2" "-1" "1" "20170625" "1000000000" "5.0"
    "20170625" "1100000000" "10.0" [] 1
    (by rfl) (by rfl) (by rfl) (by rfl)

theorem assocLookup_upsert (k k' : String) (v : β) (acc : List (String × β)) :
    assocLookup k (upsert k' v acc)
      = if k' = k then some v else assocLookup k acc := by
  induction acc with
  | nil => simp [upsert, assocLookup]
  | cons kv acc ih =>
    by_cases hk : kv.1 = k'
    · simp only [upsert, hk, if_pos rfl]
      by_cases hkk : k' = k
      · simp [assocLookup, hkk]
      · simp [assocLookup, hkk, hk]
    · simp only [upsert, if_neg hk]
      by_cases hkk : kv.1 = k
      · have : ¬ k' = k := fun h => hk (h ▸ hkk)
        simp [assocLookup, hkk, this]
      · simp [assocLookup, hkk, ih]

theorem assocLookup_append (k : String) (l1 l2 : List (String × β)) :
    assocLookup k (l1 ++ l2)
      = match assocLookup k l1 with
        | some v => some v
        | none => assocLookup k l2 := by
  induction l1 with
  | nil => simp [assocLookup]
  | cons kv l1 ih =>
    by_cases hk : kv.1 = k
    · simp [assocLookup, hk]
    · simp [assocLookup, hk, ih]

theorem assocLookup_foldl_upsert (bs : List (String × β)) :
    ∀ (acc : List (String × β)) (k : String),
      assocLookup k (bs.foldl (fun a kv => upsert kv.1 kv.2 a) acc)
        = match assocLookup k bs.reverse with
          | some v => some v
          | none => assocLookup k acc := by
  induction bs with
  | nil => intro acc k; simp [assocLookup]
  | cons kv bs ih =>
    intro acc k
    rw [List.foldl_cons, ih (upsert kv.1 kv.2 acc) k, List.reverse_cons,
      assocLookup_append, assocLookup_upsert]
    cases hA : assocLookup k bs.reverse with
    | some v => simp
    | none =>
      by_cases hk : kv.1 = k
      · simp [assocLookup, hk]
      · simp [assocLookup, hk]

theorem keys_upsert (k : String) (v : β) (acc : List (String × β)) :
    (upsert k v acc).map Prod.fst
      = if k ∈ acc.map Prod.fst then acc.map Prod.fst
        else acc.map Prod.fst ++ [k] := by
  induction acc with
  | nil => simp [upsert]
  | cons kv acc ih =>
    by_cases hk : kv.1 = k
    · simp [upsert, hk]
    · have hne : ¬ k = kv.1 := fun h => hk h.symm
      simp only [upsert, if_neg hk, List.map_cons, List.mem_cons, hne, false_or]
      by_cases hmem : k ∈ acc.map Prod.fst
      · simp [hmem, ih]
      · simp [hmem, ih]

theorem mem_keys_upsert_self (k : String) (v : β) (acc : List (String × β)) :
    k ∈ (upsert k v acc).map Prod.fst := by
  rw [keys_upsert]
  by_cases hmem : k ∈ acc.map Prod.fst
  · rw [if_pos hmem]; exact hmem
  · simp [hmem]

theorem mem_keys_upsert_of_mem (k k' : String) (v : β) (acc : List (String × β))
    (h : k ∈ acc.map Prod.fst) : k ∈ (upsert k' v acc).map Prod.fst := by
  rw [keys_upsert]
  by_cases hmem : k' ∈ acc.map Prod.fst
  · simpa [hmem] using h
  · simp only [if_neg hmem, List.mem_append]
    exact Or.inl h

theorem nodup_keys_upsert (k : String) (v : β) (acc : List (String × β))
    (h : (acc.map Prod.fst).Nodup) : ((upsert k v acc).map Prod.fst).Nodup := by
  rw [keys_upsert]
  by_cases hmem : k ∈ acc.map Prod.fst
  · simpa [hmem] using h
  · simp only [if_neg hmem]
    rw [List.nodup_append]
    refine ⟨h, List.nodup_singleton k, ?_⟩
    intro a ha hak
    rw [List.mem_singleton] at hak
    subst hak
    exact hmem ha

theorem nodup_keys_foldl_upsert (bs : List (String × β)) :
    ∀ acc : List (String × β), (acc.map Prod.fst).Nodup →
      ((bs.foldl (fun a kv => upsert kv.1 kv.2 a) acc).map Prod.fst).Nodup := by
  induction bs with
  | nil => intro acc h; simpa using h
  | cons kv bs ih =>
    intro acc h
    rw [List.foldl_cons]
    exact ih _ (nodup_keys_upsert kv.1 kv.2 acc h)

theorem length_upsert (k : String) (v : β) (acc : List (String × β)) :
    (upsert k v acc).length
      = if k ∈ acc.map Prod.fst then acc.length else acc.length + 1 := by
  induction acc with
  | nil => simp [upsert]
  | cons kv acc ih =>
    by_cases hk : kv.1 = k
    · simp [upsert, hk]
    · have hne : ¬ k = kv.1 := fun h => hk h.symm
      simp only [upsert, if_neg hk, List.length_cons, List.map_cons, List.mem_cons,
        hne, false_or]
      by_cases hmem : k ∈ acc.map Prod.fst
      · simp [hmem, ih]
      · simp [hmem, ih]

theorem length_upsert_le (k : String) (v : β) (acc : List (String × β)) :
    (upsert k v acc).length ≤ acc.length + 1 := by
  rw [length_upsert]
  by_cases hmem : k ∈ acc.map Prod.fst <;> simp [hmem]

theorem length_foldl_upsert_le (bs : List (String × β)) :
    ∀ acc : List (String × β),
      (bs.foldl (fun a kv => upsert kv.1 kv.2 a) acc).length
        ≤ acc.length + bs.length := by
  induction bs with
  | nil => intro acc; simp
  | cons kv bs ih =>
    intro acc
    rw [List.foldl_cons]
    calc (bs.foldl (fun a kv => upsert kv.1 kv.2 a) (upsert kv.1 kv.2 acc)).length
        ≤ (upsert kv.1 kv.2 acc).length + bs.length := ih _
      _ ≤ (acc.length + 1) + bs.length :=
          Nat.add_le_add_right (length_upsert_le kv.1 kv.2 acc) _
      _ = acc.length + (bs.length + 1) := by ring
      _ = acc.length + (kv :: bs).length := by simp

theorem length_foldl_upsert_lt_of_shared (bs : List (String × β)) :
    ∀ (acc : List (String × β)) (k : String),
      k ∈ bs.map Prod.fst → k ∈ acc.map Prod.fst →
      (bs.foldl (fun a kv => upsert kv.1 kv.2 a) acc).length
        < acc.length + bs.length := by
  induction bs with
  | nil => intro acc k hk _; simp at hk
  | cons kv bs ih =>
    intro acc k hk hacc
    rw [List.foldl_cons]
    rcases List.mem_cons.mp hk with heq | hmem
    · have hup : (upsert kv.1 kv.2 acc).length = acc.length := by
        rw [length_upsert, if_pos (heq ▸ hacc)]
      calc (bs.foldl (fun a kv => upsert kv.1 kv.2 a) (upsert kv.1 kv.2 acc)).length
          ≤ (upsert kv.1 kv.2 acc).length + bs.length := length_foldl_upsert_le _ _
        _ = acc.length + bs.length := by rw [hup]
        _ < acc.length + (kv :: bs).length := by simp
    · have hup : k ∈ (upsert kv.1 kv.2 acc).map Prod.fst :=
        mem_keys_upsert_of_mem k kv.1 kv.2 acc hacc
      calc (bs.foldl (fun a kv => upsert kv.1 kv.2 a) (upsert kv.1 kv.2 acc)).length
          < (upsert kv.1 kv.2 acc).length + bs.length := ih _ k hmem hup
        _ ≤ (acc.length + 1) + bs.length :=
            Nat.add_le_add_right (length_upsert_le kv.1 kv.2 acc) _
        _ = acc.length + (kv :: bs).length := by simp; ring

theorem length_foldl_upsert_lt_of_dup (bs : List (String × β)) :
    ∀ acc : List (String × β), ¬ (bs.map Prod.fst).Nodup →
      (bs.foldl (fun a kv => upsert kv.1 kv.2 a) acc).length
        < acc.length + bs.length := by
  induction bs with
  | nil => intro acc h; exact absurd List.nodup_nil h
  | cons kv bs ih =>
    intro acc h
    rw [List.foldl_cons]
    by_cases hmem : kv.1 ∈ bs.map Prod.fst
    · calc (bs.foldl (fun a kv => upsert kv.1 kv.2 a) (upsert kv.1 kv.2 acc)).length
          < (upsert kv.1 kv.2 acc).length + bs.length :=
            length_foldl_upsert_lt_of_shared bs _ kv.1 hmem
              (mem_keys_upsert_self kv.1 kv.2 acc)
        _ ≤ (acc.length + 1) + bs.length :=
            Nat.add_le_add_right (length_upsert_le kv.1 kv.2 acc) _
        _ = acc.length + (kv :: bs).length := by simp; ring
    · have hdup : ¬ (bs.map Prod.fst).Nodup := by
        intro hnd
        refine h ?_
        rw [List.map_cons]
        exact List.nodup_cons.mpr ⟨hmem, hnd⟩
      calc (bs.foldl (fun a kv => upsert kv.1 kv.2 a) (upsert kv.1 kv.2 acc)).length
          < (upsert kv.1 kv.2 acc).length + bs.length := ih _ hdup
        _ ≤ (acc.length + 1) + bs.length :=
            Nat.add_le_add_right (length_upsert_le kv.1 kv.2 acc) _
        _ = acc.length + (kv :: bs).length := by simp; ring

theorem parseRegions_eq_raw (cre : Bool) (st : ParserState) :
    ∀ (n : ℕ) (ls : List String) (acc : List (String × RegionData)),
      parseRegions cre st n ls acc
        = (parseRegionsRaw cre st n ls).map
            (fun p => (p.1.foldl (fun a kv => upsert kv.1 kv.2 a) acc, p.2)) := by
  intro n
  induction n with
  | zero => intro ls acc; rfl
  | succ n ih =>
    intro ls acc
    simp only [parseRegions, parseRegionsRaw]
    cases hb : parseRegionBlock cre st ls with
    | none => simp
    | some b =>
      obtain ⟨⟨rid, rd⟩, rest⟩ := b
      have key : parseRegions cre st n rest (upsert rid rd acc)
          = Option.map
              (fun p => (List.foldl (fun a kv => upsert kv.1 kv.2 a) acc p.1, p.2))
              (match parseRegionsRaw cre st n rest with
               | some (bs, rest2) => some ((rid, rd) :: bs, rest2)
               | none => none) := by
        rw [ih rest (upsert rid rd acc)]
        cases hr : parseRegionsRaw cre st n rest with
        | none => rfl
        | some p =>
          obtain ⟨bs, rest2⟩ := p
          simp
      exact key

theorem parseRegionsRaw_length (cre : Bool) (st : ParserState) :
    ∀ (n : ℕ) (ls : List String) (bs : List (String × RegionData)) (rest : List String),
      parseRegionsRaw cre st n ls = some (bs, rest) → bs.length = n := by
  intro n
  induction n with
  | zero =>
    intro ls bs rest h
    simp only [parseRegionsRaw, Option.some_inj, Prod.mk.injEq] at h
    rw [← h.1]
    rfl
  | succ n ih =>
    intro ls bs rest h
    simp only [parseRegionsRaw] at h
    split at h
    · next b rest' hb =>
      split at h
      · next bs' rest2 hr =>
        simp only [Option.some_inj, Prod.mk.injEq] at h
        rw [← h.1]
        simp [ih rest' bs' rest2 hr]
      · cases h
    · cases h

/-- C10: whenever the declared number of region blocks parses (blocks listed
in file order by `parseRegionsRaw`), `Region2DParser._parse` succeeds and
returns a mapping with pairwise-distinct region-id keys in which each id is
bound to the full record (metadata, notes, detection settings,
classification, type, points, name) of the LAST block carrying that id, so a
file with duplicate region ids parses without error to strictly fewer
entries than its declared region count. -/
theorem evr_duplicate_region_ids :
    ∀ (cre : Bool) (st : ParserState) (header countLine : String)
      (body : List String) (ft ffn ev : String) (extra : List String)
      (n : ℤ) (blocks : List (String × RegionData)) (rest : List String),
      tokens header = ft :: ffn :: ev :: extra →
      parseInt countLine = some n →
      parseRegionsRaw cre st n.toNat body = some (blocks, rest) →
      ∃ regions,
        evrParse cre st (header :: countLine :: body)
          = some (⟨ft, ffn, ev⟩, regions) ∧
        (regions.map Prod.fst).Nodup ∧
        (∀ rid, assocLookup rid regions = assocLookup rid blocks.reverse) ∧
        blocks.length = n.toNat ∧
        (¬ (blocks.map Prod.fst).Nodup → regions.length < n.toNat) := by
  intro cre st header countLine body ft ffn ev extra n blocks rest htok hn hraw
  have hreg : parseRegions cre st n.toNat body []
      = some (blocks.foldl (fun a kv => upsert kv.1 kv.2 a) [], rest) := by
    rw [parseRegions_eq_raw, hraw]
    rfl
  refine ⟨blocks.foldl (fun a kv => upsert kv.1 kv.2 a) [], ?_, ?_, ?_, ?_, ?_⟩
  · simp only [evrParse, htok, hn, hreg]
  · exact nodup_keys_foldl_upsert blocks [] (by simp)
  · intro rid
    rw [assocLookup_foldl_upsert]
    cases hA : assocLookup rid blocks.reverse <;> simp [assocLookup]
  · exact parseRegionsRaw_length cre st n.toNat body blocks rest hraw
  · intro hdup
    have hlt := length_foldl_upsert_lt_of_dup blocks [] hdup
    have hlen := parseRegionsRaw_length cre st n.toNat body blocks rest hraw
    simpa [hlen] using hlt

/-- Lines of the first example region block (region id 7, name RegionA). -/
def exBlockLines1 : List String :=
  ["", "13 1 7 0 2 -1 1 20170625 1000000000 5.0 20170625 1100000000 10.0",
   "0", "0", "Unclassified regions", "20170625 1000000000 5 1", "RegionA"]

/-- Lines of the second example region block (same region id 7, name RegionB). -/
def exBlockLines2 : List String :=
  ["", "13 1 7 0 2 -1 1 20170625 1200000000 6.0 20170625 1300000000 11.0",
   "0", "0", "Unclassified regions", "20170625 1200000000 6 1", "RegionB"]

/-- Parsed record of the first example block. -/
def exRegionData1 : RegionData :=
  ⟨⟨"13", "1", "0", "2", "-1", "1", "D20170625T1000000000", "5.0",
    "D20170625T1100000000", "10.0"⟩, [], [], "Unclassified regions", "1",
   [("D20170625T1000000000", Sum.inl "5")], "RegionA"⟩

/-- Parsed record of the second example block. -/
def exRegionData2 : RegionData :=
  ⟨⟨"13", "1", "0", "2", "-1", "1", "D20170625T1200000000", "6.0",
    "D20170625T1300000000", "11.0"⟩, [], [], "Unclassified regions", "1",
   [("D20170625T1200000000", Sum.inl "6")], "RegionB"⟩

/-- Witness for C10: a file declaring two regions whose blocks both carry
region id 7 parses without error; the mapping keeps one entry bound to the
record of the second block and is shorter than the declared count. -/
theorem evr_duplicate_region_ids_witness :
    ∃ regions,
      evrParse false ⟨none, none⟩
        ("EVR 6 8.0.73.30735" :: "2" :: (exBlockLines1 ++ exBlockLines2))
        = some (⟨"EVR", "6", "8.0.73.30735"⟩, regions) ∧
      (regions.map Prod.fst).Nodup ∧
      (∀ rid, assocLookup rid regions
        = assocLookup rid ([("7", exRegionData1), ("7", exRegionData2)] :
            List (String × RegionData)).reverse) ∧
      ([("7", exRegionData1), ("7", exRegionData2)] :
          List (String × RegionData)).length = (2 : ℤ).toNat ∧
      (¬ (([("7", exRegionData1), ("7", exRegionData2)] :
            List (String × RegionData)).map Prod.fst).Nodup →
        regions.length < (2 : ℤ).toNat) :=
  evr_duplicate_region_ids false ⟨none, none⟩ "EVR 6 8.0.73.30735" "2"
    (exBlockLines1 ++ exBlockLines2) "EVR" "6" "8.0.73.30735" [] 2
    [("7", exRegionData1), ("7", exRegionData2)] []
    (by rfl) (by rfl) (by rfl)

/-! ## TimeCodec (spec section 4.1)

The time decoder (`parse_time` in the utils module) is not in the source
snapshot; only its test is.  It is modelled from the spec: composite token
D{CCYYMMDD}T{HHmmSSssss}, the trailing four time digits being sub-second
units of 0.1 ms, also accepted as the two space-separated file tokens. -/

/-- A decoded instant; `subsec` counts 0.1 millisecond units (four digits). -/
structure Instant where
  year : ℕ
  month : ℕ
  day : ℕ
  hour : ℕ
  minute : ℕ
  second : ℕ
  subsec : ℕ
  deriving Repr, DecidableEq

/-- Decode the 8 date digits CCYYMMDD and the 10 time digits HHmmSSssss. -/
def parseTimeParts (dateCs timeCs : List Char) : Option Instant :=
  if dateCs.length = 8 ∧ timeCs.length = 10 then
    match parseNatList (dateCs.take 4), parseNatList ((dateCs.drop 4).take 2),
        parseNatList (dateCs.drop 6), parseNatList (timeCs.take 2),
        parseNatList ((timeCs.drop 2).take 2), parseNatList ((timeCs.drop 4).take 2),
        parseNatList (timeCs.drop 6) with
    | some y, some mo, some d, some h, some mi, some s, some ss =>
        some ⟨y, mo, d, h, mi, s, ss⟩
    | _, _, _, _, _, _, _ => none
  else none

/-- Modelled from the spec: `parse_time` decodes D{CCYYMMDD}T{HHmmSSssss},
or the same date and time as two space-separated tokens. -/
def parse_time (s : String) : Option Instant :=
  match s.data with
  | 'D' :: c1 :: c2 :: c3 :: c4 :: c5 :: c6 :: c7 :: c8 :: 'T' :: timeCs =>
      parseTimeParts [c1, c2, c3, c4, c5, c6, c7, c8] timeCs
  | c1 :: c2 :: c3 :: c4 :: c5 :: c6 :: c7 :: c8 :: ' ' :: timeCs =>
      parseTimeParts [c1, c2, c3, c4, c5, c6, c7, c8] timeCs
  | _ => none

/-- C9: decoding the composite timestamp string 20170625 1539223320 yields
the instant 2017-06-25T15:39:22.3320, the trailing four time digits being
sub-second units of 0.1 ms (3320 units = 332.0 ms). -/
theorem parse_time_literal :
    parse_time "20170625 1539223320" = some ⟨2017, 6, 25, 15, 39, 22, 3320⟩ := by
  rfl

/-! ## Point lookup across CSV, JSON and parsed data
(`Region2DParser.get_points_from_region` and `to_csv` in
src/echoregions/convert/evr_parser.py)

External collaborators are modelled: the filesystem as association lists from
filename to content, a JSON export/load round-trip as the identity on the
parsed structure, and pandas CSV reading as per-cell numeric parsing of the
written tokens (the claims only exercise tables whose region_id and y
columns are numeric). -/

/-- The two Python exception kinds the lookup can raise. -/
inductive PyError where
  | valueError (msg : String)
  | keyError (key : String)
  deriving Repr, DecidableEq

/-- The parse result of one EVR file as stored in output_data. -/
structure ParsedData where
  regions : List (String × RegionData)
  deriving Repr, DecidableEq

/-- One CSV row as written by `to_csv`: the region id token, the composite
timestamp x, and the y cell exactly as stored in the parsed points. -/
structure CsvRow where
  region_id : String
  x : String
  y : String ⊕ ℚ
  deriving Repr, DecidableEq

/-- `to_csv`: one row per point, regions in mapping order, points in order. -/
def csvOfData (d : ParsedData) : List CsvRow :=
  d.regions.flatMap (fun r => r.2.points.map (fun p => ⟨r.1, p.1, p.2⟩))

/-- Decimal fraction literal (digits, optional dot and digits) as a rational. -/
def parseDecList (cs : List Char) : Option ℚ :=
  match (cs.takeWhile (fun c => c ≠ '.')), (cs.dropWhile (fun c => c ≠ '.')) with
  | intPart, [] => (parseNatList intPart).map (fun n => (n : ℚ))
  | intPart, '.' :: frac =>
    match parseNatList intPart, parseNatList frac with
    | some ip, some fp => some ((ip : ℚ) + (fp : ℚ) / ((10 : ℚ) ^ frac.length))
    | _, _ => none
  | _, _ => none

/-- Modelled from the spec: the float conversion pandas applies to a numeric
CSV cell. -/
def parseDec (s : String) : Option ℚ :=
  match s.data with
  | '-' :: cs => (parseDecList cs).map (fun q => -q)
  | cs => parseDecList cs

/-- Numeric value of a written y cell: a token cell is parsed as a decimal,
an already numeric cell (substituted bound) reads back as itself. -/
def yNumeric : String ⊕ ℚ → Option ℚ
  | Sum.inl s => parseDec s
  | Sum.inr q => some q

/-- Modelled from the spec: pandas typing of the CSV columns, defined when
every region_id cell is an integer and every y cell a decimal. -/
def readCsvTyped : List CsvRow → Option (List (ℤ × String × ℚ))
  | [] => some []
  | r :: rs =>
    match parseInt r.region_id, yNumeric r.y, readCsvTyped rs with
    | some rid, some y, some rest => some ((rid, r.x, y) :: rest)
    | _, _, _ => none

/-- Decimal digits of a natural number, most significant first; `fuel`
bounds the recursion and any value above the number of digits is enough. -/
def natToCharsAux : ℕ → ℕ → List Char → List Char
  | 0, _, acc => acc
  | fuel + 1, n, acc =>
    if n < 10 then Char.ofNat (48 + n) :: acc
    else natToCharsAux fuel (n / 10) (Char.ofNat (48 + n % 10) :: acc)

/-- Modelled from the spec: Python str() on the integer region selector. -/
def intToString (z : ℤ) : String :=
  match z with
  | Int.ofNat n => String.mk (natToCharsAux (n + 1) n [])
  | Int.negSucc m => String.mk ('-' :: natToCharsAux (m + 2) (m + 1) [])

/-- Uppercased-suffix test modelling file.upper().endswith of Python. -/
def endsWithCSV (s : String) : Bool :=
  (s.data.map Char.toUpper).reverse.take 4 = ['V', 'S', 'C', '.']

/-- Uppercased-suffix test for the JSON extension. -/
def endsWithJSON (s : String) : Bool :=
  (s.data.map Char.toUpper).reverse.take 5 = ['N', 'O', 'S', 'J', '.']

/-- The external world of one lookup call: the CSV files on disk, the JSON
files on disk (their load being the exported structure itself), and the
output_data of the parser itself. -/
structure LookupEnv where
  csvFiles : List (String × List CsvRow)
  jsonFiles : List (String × ParsedData)
  outputData : List (String × ParsedData)
  deriving Repr, DecidableEq

/-- `Region2DParser.get_points_from_region` (convert_time left false): a
.CSV name reads the CSV file, filters rows on region_id equal to the int
selector and zips the x and y columns; otherwise a .JSON name loads the
file and any other name indexes output_data, both then indexing
regions[str(region)] and returning its points. -/
def get_points_from_region (env : LookupEnv) (region : ℤ) (file : String) :
    Except PyError (List (String × (String ⊕ ℚ))) :=
  if endsWithCSV file then
    match assocLookup file env.csvFiles with
    | none => Except.error (PyError.valueError (file ++ " is not a valid CSV file."))
    | some table =>
      match readCsvTyped table with
      | some typed =>
          Except.ok ((typed.filter (fun t => t.1 = region)).map
            (fun t => (t.2.1, Sum.inr t.2.2)))
      | none => Except.error (PyError.valueError "CSV columns outside the numeric model")
  else if endsWithJSON file then
    match assocLookup file env.jsonFiles with
    | none => Except.error (PyError.valueError (file ++ " is not a valid JSON file."))
    | some d =>
      match assocLookup (intToString region) d.regions with
      | some rd => Except.ok rd.points
      | none => Except.error (PyError.keyError (intToString region))
  else
    match assocLookup file env.outputData with
    | some d =>
      match assocLookup (intToString region) d.regions with
      | some rd => Except.ok rd.points
      | none => Except.error (PyError.keyError (intToString region))
    | none => Except.error (PyError.keyError file)

/-- Parsed data with the single region id 7 used in the lookup examples. -/
def exParsedData : ParsedData := ⟨[("7", exRegionData1)]⟩

/-- Example lookup world: the CSV export, the JSON export and the parsed
output of the same single-region data. -/
def exLookupEnv : LookupEnv :=
  ⟨[("out.CSV", csvOfData exParsedData)], [("out.JSON", exParsedData)],
   [("x1.evr", exParsedData)]⟩

/-- Counterexample for C8: selecting points for region id 8, absent from the
existing referenced CSV file, returns the empty list and raises nothing. -/
theorem get_points_absent_csv_id_counterexample :
    get_points_from_region exLookupEnv 8 "out.CSV" = Except.ok [] ∧
    ∀ e : PyError, get_points_from_region exLookupEnv 8 "out.CSV" ≠ Except.error e := by
  constructor
  · rfl
  · intro e h
    rw [show get_points_from_region exLookupEnv 8 "out.CSV" = Except.ok [] from rfl] at h
    cases h

/-- C8 (amended): a named external CSV or JSON file that does not exist
raises ValueError; an absent region id raises no ValueError: the CSV branch
returns the empty list and the JSON and in-memory branches raise KeyError. -/
theorem get_points_errors :
    (∀ (env : LookupEnv) (region : ℤ) (file : String),
      endsWithCSV file = true →
      assocLookup file env.csvFiles = none →
      get_points_from_region env region file
        = Except.error (PyError.valueError (file ++ " is not a valid CSV file."))) ∧
    (∀ (env : LookupEnv) (region : ℤ) (file : String),
      endsWithCSV file = false → endsWithJSON file = true →
      assocLookup file env.jsonFiles = none →
      get_points_from_region env region file
        = Except.error (PyError.valueError (file ++ " is not a valid JSON file."))) ∧
    (∀ (env : LookupEnv) (region : ℤ) (file : String) table typed,
      endsWithCSV file = true →
      assocLookup file env.csvFiles = some table →
      readCsvTyped table = some typed →
      (∀ t ∈ typed, t.1 ≠ region) →
      get_points_from_region env region file = Except.ok []) ∧
    (∀ (env : LookupEnv) (region : ℤ) (file : String) d,
      endsWithCSV file = false → endsWithJSON file = true →
      assocLookup file env.jsonFiles = some d →
      assocLookup (intToString region) d.regions = none →
      get_points_from_region env region file
        = Except.error (PyError.keyError (intToString region))) ∧
    (∀ (env : LookupEnv) (region : ℤ) (file : String) d,
      endsWithCSV file = false → endsWithJSON file = false →
      assocLookup file env.outputData = some d →
      assocLookup (intToString region) d.regions = none →
      get_points_from_region env region file
        = Except.error (PyError.keyError (intToString region))) := by
  refine ⟨?_, ?_, ?_, ?_, ?_⟩
  · intro env region file hC hlook
    simp only [get_points_from_region, hC, if_true, hlook]
  · intro env region file hC hJ hlook
    simp only [get_points_from_region, hC, hJ, if_true, Bool.false_eq_true,
      if_false, hlook]
  · intro env region file table typed hC hlook htyped hne
    simp only [get_points_from_region, hC, if_true, hlook, htyped]
    rw [List.filter_eq_nil_iff.mpr (fun t ht => by simpa using hne t ht)]
    rfl
  · intro env region file d hC hJ hlook hid
    simp only [get_points_from_region, hC, hJ, if_true, Bool.false_eq_true,
      if_false, hlook, hid]
  · intro env region file d hC hJ hlook hid
    simp only [get_points_from_region, hC, hJ, Bool.false_eq_true, if_false,
      hlook, hid]

/-- Witness for C8: the missing-file and absent-id behaviors at the concrete
example world. -/
theorem get_points_errors_witness :
    get_points_from_region exLookupEnv 1 "missing.CSV"
      = Except.error (PyError.valueError "missing.CSV is not a valid CSV file.") ∧
    get_points_from_region exLookupEnv 1 "missing.JSON"
      = Except.error (PyError.valueError "missing.JSON is not a valid JSON file.") ∧
    get_points_from_region exLookupEnv 8 "out.JSON"
      = Except.error (PyError.keyError (intToString 8)) ∧
    get_points_from_region exLookupEnv 8 "x1.evr"
      = Except.error (PyError.keyError (intToString 8)) :=
  ⟨get_points_errors.1 exLookupEnv 1 "missing.CSV" (by rfl) (by rfl),
   get_points_errors.2.1 exLookupEnv 1 "missing.JSON" (by rfl) (by rfl) (by rfl),
   get_points_errors.2.2.2.1 exLookupEnv 8 "out.JSON" exParsedData
     (by rfl) (by rfl) (by rfl) (by rfl),
   get_points_errors.2.2.2.2 exLookupEnv 8 "x1.evr" exParsedData
     (by rfl) (by rfl) (by rfl) (by rfl)⟩

/-- Counterexample for C7: the same logical region 7 from the CSV export and
from the in-memory parse result: the CSV source yields the numeric depth 5,
the in-memory source the original token 5.0, so the outputs are not equal. -/
theorem get_points_cross_format_counterexample :
    get_points_from_region exLookupEnv 7 "out.CSV"
      = Except.ok [("D20170625T1000000000", Sum.inr 5)] ∧
    get_points_from_region exLookupEnv 7 "x1.evr"
      = Except.ok [("D20170625T1000000000", Sum.inl "5")] ∧
    get_points_from_region exLookupEnv 7 "out.CSV"
      ≠ get_points_from_region exLookupEnv 7 "x1.evr" := by
  refine ⟨rfl, rfl, ?_⟩
  intro h
  rw [show get_points_from_region exLookupEnv 7 "out.CSV"
      = Except.ok [("D20170625T1000000000", Sum.inr (5 : ℚ))] from rfl,
    show get_points_from_region exLookupEnv 7 "x1.evr"
      = Except.ok [("D20170625T1000000000", Sum.inl "5")] from rfl] at h
  simp at h

/-- The typed CSV rows one region contributes after pandas numeric typing. -/
def typedRowsOf (r : String × RegionData) : List (ℤ × String × ℚ) :=
  r.2.points.map (fun p => ((parseInt r.1).getD 0, p.1, (yNumeric p.2).getD 0))

theorem readCsvTyped_append (l1 l2 : List CsvRow) (t1 t2 : List (ℤ × String × ℚ))
    (h1 : readCsvTyped l1 = some t1) (h2 : readCsvTyped l2 = some t2) :
    readCsvTyped (l1 ++ l2) = some (t1 ++ t2) := by
  induction l1 generalizing t1 with
  | nil =>
    simp only [readCsvTyped, Option.some_inj] at h1
    subst h1
    simpa using h2
  | cons r rs ih =>
    simp only [readCsvTyped] at h1
    split at h1
    · next rid y rest hrid hy hrest =>
      simp only [Option.some_inj] at h1
      subst h1
      rw [List.cons_append]
      simp [readCsvTyped, hrid, hy, ih rest hrest]
    · cases h1

theorem readCsvTyped_points (rid : String) (ri : ℤ) (hri : parseInt rid = some ri) :
    ∀ pts : List (String × (String ⊕ ℚ)),
      (∀ p ∈ pts, ∃ q, yNumeric p.2 = some q) →
      readCsvTyped (pts.map (fun p => ⟨rid, p.1, p.2⟩))
        = some (pts.map (fun p => (ri, p.1, (yNumeric p.2).getD 0))) := by
  intro pts
  induction pts with
  | nil => intro _; rfl
  | cons p pts ih =>
    intro hys
    obtain ⟨q, hq⟩ := hys p (List.mem_cons_self _ _)
    rw [List.map_cons, List.map_cons, readCsvTyped, hri, hq,
      ih (fun p hp => hys p (List.mem_cons_of_mem _ hp))]
    simp [hq]

theorem readCsvTyped_segment (r : String × RegionData)
    (hrid : ∃ ri, parseInt r.1 = some ri)
    (hys : ∀ p ∈ r.2.points, ∃ q, yNumeric p.2 = some q) :
    readCsvTyped (r.2.points.map (fun p => ⟨r.1, p.1, p.2⟩)) = some (typedRowsOf r) := by
  obtain ⟨ri, hri⟩ := hrid
  rw [readCsvTyped_points r.1 ri hri r.2.points hys]
  simp [typedRowsOf, hri]

theorem readCsvTyped_csvOfData (d : ParsedData)
    (h1 : ∀ r ∈ d.regions, ∃ ri, parseInt r.1 = some ri)
    (h2 : ∀ r ∈ d.regions, ∀ p ∈ r.2.points, ∃ q, yNumeric p.2 = some q) :
    readCsvTyped (csvOfData d) = some (d.regions.flatMap typedRowsOf) := by
  obtain ⟨regs⟩ := d
  simp only [csvOfData] at h1 h2 ⊢
  induction regs with
  | nil => rfl
  | cons r regs ih =>
    rw [List.flatMap_cons, List.flatMap_cons]
    exact readCsvTyped_append _ _ _ _
      (readCsvTyped_segment r (h1 r (List.mem_cons_self _ _))
        (h2 r (List.mem_cons_self _ _)))
      (ih (fun r' hr' => h1 r' (List.mem_cons_of_mem _ hr'))
        (fun r' hr' => h2 r' (List.mem_cons_of_mem _ hr')))

theorem csv_filter_unique (region : ℤ) :
    ∀ (regs : List (String × RegionData)) (rd : RegionData),
      (regs.map Prod.fst).Nodup →
      (∀ r ∈ regs, parseInt r.1 = some region ↔ r.1 = intToString region) →
      (∀ r ∈ regs, ∃ ri, parseInt r.1 = some ri) →
      assocLookup (intToString region) regs = some rd →
      (regs.flatMap typedRowsOf).filter (fun t => t.1 = region)
        = rd.points.map (fun p => (region, p.1, (yNumeric p.2).getD 0)) := by
  intro regs
  induction regs with
  | nil => intro rd _ _ _ hl; cases hl
  | cons r regs ih =>
    intro rd hnd hiff hex hl
    rw [List.map_cons, List.nodup_cons] at hnd
    obtain ⟨hnotin, hnd'⟩ := hnd
    rw [List.flatMap_cons, List.filter_append]
    by_cases hk : r.1 = intToString region
    · simp only [assocLookup, if_pos hk, Option.some_inj] at hl
      subst hl
      have hsome : parseInt r.1 = some region :=
        (hiff r (List.mem_cons_self _ _)).mpr hk
      have hseg : (typedRowsOf r).filter (fun t => t.1 = region) = typedRowsOf r := by
        rw [List.filter_eq_self]
        intro a ha
        rw [typedRowsOf] at ha
        obtain ⟨p, -, rfl⟩ := List.mem_map.mp ha
        simp [hsome]
      have htail : (regs.flatMap typedRowsOf).filter (fun t => t.1 = region) = [] := by
        rw [List.filter_eq_nil_iff]
        intro t ht
        obtain ⟨r', hr', htr⟩ := List.mem_flatMap.mp ht
        obtain ⟨ri', hri'⟩ := hex r' (List.mem_cons_of_mem _ hr')
        rw [typedRowsOf] at htr
        obtain ⟨p, -, rfl⟩ := List.mem_map.mp htr
        simp only [hri', Option.getD_some, decide_eq_true_eq]
        intro hreg
        have h2 : parseInt r'.1 = some region := hreg ▸ hri'
        have h3 : r'.1 = intToString region :=
          (hiff r' (List.mem_cons_of_mem _ hr')).mp h2
        apply hnotin
        have hre : r.1 = r'.1 := by rw [hk, h3]
        rw [hre]
        exact List.mem_map_of_mem Prod.fst hr'
      rw [hseg, htail, List.append_nil, typedRowsOf, hsome]
      simp
    · simp only [assocLookup, if_neg hk] at hl
      have hseg : (typedRowsOf r).filter (fun t => t.1 = region) = [] := by
        rw [List.filter_eq_nil_iff]
        intro t ht
        obtain ⟨ri, hri⟩ := hex r (List.mem_cons_self _ _)
        rw [typedRowsOf] at ht
        obtain ⟨p, -, rfl⟩ := List.mem_map.mp ht
        simp only [hri, Option.getD_some, decide_eq_true_eq]
        intro hreg
        exact hk ((hiff r (List.mem_cons_self _ _)).mp (hreg ▸ hri))
      rw [hseg, List.nil_append]
      exact ih rd hnd'
        (fun r' hr' => hiff r' (List.mem_cons_of_mem _ hr'))
        (fun r' hr' => hex r' (List.mem_cons_of_mem _ hr')) hl

/-- C7 (amended): for a region id present in all three consistently derived
sources, the JSON and in-memory sources return identical outputs (the stored
point pairs), and the CSV source returns the same number of pairs in the same
order with the same x values, its y values being the numeric reading of the
written y cells; strict equality of the CSV output against the other two
fails in general, the y representation differing (see the counterexample). -/
theorem get_points_cross_format :
    ∀ (env : LookupEnv) (d : ParsedData) (region : ℤ)
      (fileC fileJ fileP : String) (rd : RegionData),
      endsWithCSV fileC = true →
      endsWithCSV fileJ = false → endsWithJSON fileJ = true →
      endsWithCSV fileP = false → endsWithJSON fileP = false →
      assocLookup fileC env.csvFiles = some (csvOfData d) →
      assocLookup fileJ env.jsonFiles = some d →
      assocLookup fileP env.outputData = some d →
      (d.regions.map Prod.fst).Nodup →
      (∀ r ∈ d.regions, parseInt r.1 = some region ↔ r.1 = intToString region) →
      (∀ r ∈ d.regions, ∃ ri, parseInt r.1 = some ri) →
      (∀ r ∈ d.regions, ∀ p ∈ r.2.points, ∃ q, yNumeric p.2 = some q) →
      assocLookup (intToString region) d.regions = some rd →
      get_points_from_region env region fileJ = Except.ok rd.points ∧
      get_points_from_region env region fileP = Except.ok rd.points ∧
      get_points_from_region env region fileC
        = Except.ok (rd.points.map (fun p => (p.1, Sum.inr ((yNumeric p.2).getD 0)))) := by
  intro env d region fileC fileJ fileP rd hC hJC hJ hPC hPJ hlookC hlookJ hlookP
    hnd hiff hex hys hlook
  refine ⟨?_, ?_, ?_⟩
  · simp only [get_points_from_region, hJC, Bool.false_eq_true, if_false, hJ,
      if_true, hlookJ, hlook]
  · simp only [get_points_from_region, hPC, hPJ, Bool.false_eq_true, if_false,
      hlookP, hlook]
  · simp only [get_points_from_region, hC, if_true, hlookC,
      readCsvTyped_csvOfData d hex hys,
      csv_filter_unique region d.regions rd hnd hiff hex hlook]
    simp [List.map_map]

/-- Witness for C7: the amended theorem at the example world, region id 7. -/
theorem get_points_cross_format_witness :
    get_points_from_region exLookupEnv 7 "out.JSON" = Except.ok exRegionData1.points ∧
    get_points_from_region exLookupEnv 7 "x1.evr" = Except.ok exRegionData1.points ∧
    get_points_from_region exLookupEnv 7 "out.CSV"
      = Except.ok (exRegionData1.points.map
          (fun p => (p.1, Sum.inr ((yNumeric p.2).getD 0)))) :=
  get_points_cross_format exLookupEnv exParsedData 7 "out.CSV" "out.JSON" "x1.evr"
    exRegionData1 (by rfl) (by rfl) (by rfl) (by rfl) (by rfl) (by rfl) (by rfl)
    (by rfl) (by decide) (by decide)
    (by
      intro r hr
      rw [show exParsedData.regions = [("7", exRegionData1)] from rfl,
        List.mem_singleton] at hr
      subst hr
      exact ⟨7, rfl⟩)
    (by
      intro r hr p hp
      rw [show exParsedData.regions = [("7", exRegionData1)] from rfl,
        List.mem_singleton] at hr
      subst hr
      rw [show exRegionData1.points = [("D20170625T1000000000", Sum.inl "5")] from rfl,
        List.mem_singleton] at hp
      subst hp
      exact ⟨5, rfl⟩)
    (by rfl)

end Echoregions
